import Mathlib

/-!
Verification of the build engine core against its specification.

The definitions below are a shallow embedding of the C++ sources:

* `src/build2/target.cxx`  — target set interning, extension update,
  recipe installation (`target::recipe`);
* `src/build/rule.cxx`     — the fallback `path_rule`, `fsdir_rule`;
* `src/build/file.cxx`     — `create_root` and `import`;
* `src/build2/test/script/runner.cxx` — the test-script runner's
  `leave` (cleanups) and `check_output`/`non_empty`.

Interned strings (extension pool, name pool) compare by identity in the
source; identity of pooled strings coincides with string equality, so the
embedding uses plain `String` (and `Option String` for a nullable
extension pointer).  The global target set (a `std::map`) is modelled as
a list of targets searched front to back.  Failure (`fail << ...`, a
failed `assert`) is modelled with `Option`/`Except`.
-/

/-- Execution states of a target, in the order of the
`target_state_` array in `build2/target.cxx`. -/
inductive TargetState
  | unknown
  | unchanged
  | postponed
  | changed
  | failed
  | group
deriving DecidableEq

/-! ## Target set (`build2/target.cxx`, `target_set::find` / `target_set::insert`) -/

/-- The composite key of the target set: target type (identified by its
type name, standing for the pointer to the static descriptor), out
directory, out (for targets from src), name and nullable extension. -/
structure TargetKey where
  tt : String
  dir : String
  out : String
  name : String
  ext : Option String
deriving DecidableEq

/-- The per-target data the target-set claims need: exactly the key
fields; `ext` is the mutable stored extension. -/
structure Target where
  tt : String
  dir : String
  out : String
  name : String
  ext : Option String
deriving DecidableEq

/-- Modelled from the spec: the `target_key` comparator lives in the
`build2/target` header, which is not among the repository's files.  Per
section 4.D the map is keyed by pointer equality on the type and path
references and value equality on name and extension; the diagnostics in
`target_set::find` ("assuming target ... is the same as the one with
unspecified extension") show that an unspecified (null) extension
compares equal to any extension, so two keys collide exactly when type,
dir, out and name agree and the extensions are not two distinct
specified values. -/
def keyMatches (k : TargetKey) (t : Target) : Bool :=
  k.tt == t.tt && k.dir == t.dir && k.out == t.out && k.name == t.name &&
    (match k.ext, t.ext with
     | some a, some b => a == b
     | _, _ => true)

/-- `target_set::find` (target.cxx:179-210): look the key up in the map;
when a target is found and the existing target's extension differs from
the key's, update it — but only when the key's extension is specified
(`ext != nullptr`).  Returns the index of the found target and the
updated store. -/
def target_set.find (k : TargetKey) : List Target → Option Nat × List Target
  | [] => (none, [])
  | t :: ts =>
    if keyMatches k t then
      (some 0,
       (if t.ext ≠ k.ext ∧ k.ext ≠ none then { t with ext := k.ext } else t) :: ts)
    else
      let r := target_set.find k ts
      (r.1.map (· + 1), t :: r.2)

/-- `target_set::insert` (target.cxx:212-233): find the key; when absent,
run the target type's factory and emplace the new target.  Returns the
index of the target, the `inserted?` flag, and the updated store.  The
factory is a parameter, as in the source (`tt.factory`). -/
def target_set.insert (factory : TargetKey → Target) (s : List Target)
    (k : TargetKey) : Nat × Bool × List Target :=
  match target_set.find k s with
  | (some i, s') => (i, false, s')
  | (none, s') => (s'.length, true, s' ++ [factory k])

/-- `file_factory` (target.cxx:470-486): the file target type implies no
extension, so an unspecified extension is stored as the empty (pooled)
string — `file{foo}` is treated as `file{foo.}`. -/
def file_factory (k : TargetKey) : Target :=
  { tt := k.tt, dir := k.dir, out := k.out, name := k.name,
    ext := match k.ext with
           | some e => some e
           | none => some "" }

/-! ## Recipe installation (`build2/target.cxx`, `target::recipe`) -/

/-- The distinguished recipes of `build2/target.cxx` (`noop_recipe`,
`default_recipe`, `group_recipe`) plus arbitrary callable recipes. -/
inductive Recipe
  | noop
  | default_
  | group
  | custom (n : Nat)
deriving DecidableEq

/-- The per-target state `target::recipe` reads and writes: the action
the current recipe was installed for, the recipe itself (`none` models
an empty `std::function`), the raw state and the dependents count.  The
action type is a parameter: its override ordering `operator>` is defined
in the `build2/operation` header, which is not among the repository's
files, so theorems quantify over the ordering `gt`. -/
structure TargetRec (α : Type) where
  action : α
  recipe_ : Option Recipe
  raw_state : TargetState
  dependents : Nat
deriving DecidableEq

/-- `target::recipe` (target.cxx:51-85).  The entry assertion
`assert (a > action || !recipe_)` and the only-noop-overridden assertion
are modelled as `none` results; on success the action, recipe, raw state
(`unchanged` for a noop recipe, else `unknown`) and dependents count
(kept when merely overriding, else reset) are updated. -/
def target.recipe {α : Type} [DecidableEq α] (gt : α → α → Bool)
    (t : TargetRec α) (a : α) (r : Recipe) : Option (TargetRec α) :=
  if gt a t.action = true ∨ t.recipe_ = none then
    if (a = t.action ∧ t.recipe_ ≠ none) ∧ t.recipe_ ≠ some Recipe.noop then
      none
    else
      some
        { action := a
          recipe_ := some r
          raw_state := if r = Recipe.noop then TargetState.unchanged
                       else TargetState.unknown
          dependents := if a = t.action ∧ t.recipe_ ≠ none then t.dependents
                        else 0 }
  else
    none

/-! ## Actions and the fallback rules (`build/rule.cxx`) -/

/-- An action of the 2015 `build` engine: a meta-operation id paired
with an operation id (`build/operation`).  Comparison with an action id
constant such as `perform_update_id` compares both components. -/
structure BAction where
  meta : Nat
  op : Nat
deriving DecidableEq

def perform_id : Nat := 1

def default_id : Nat := 1

def update_id : Nat := 2

def clean_id : Nat := 3

def perform_update_id : BAction := ⟨perform_id, update_id⟩

def perform_clean_id : BAction := ⟨perform_id, clean_id⟩

/-- A resolved prerequisite target as `path_rule::perform_update` sees
it: whether it is an `mtime_target` (the `dynamic_cast` succeeds), its
mtime, and the state its execution returns. -/
structure PrereqTarget where
  mtimeBased : Bool
  mtime : Nat
  execState : TargetState
deriving DecidableEq

/-- The per-prerequisite failure condition of
`path_rule::perform_update`: an mtime-based prerequisite is ahead when
its mtime strictly exceeds the target's; any other prerequisite is ahead
when its execution returned `changed`. -/
def prereqAhead (mt : Nat) (p : PrereqTarget) : Bool :=
  if p.mtimeBased then decide (mt < p.mtime)
  else decide (p.execState = TargetState.changed)

/-- `path_rule::perform_update` (rule.cxx:90-124): walk the resolved
prerequisites in order; each is executed, then checked; the first
prerequisite that is ahead of the target raises the
no-recipe/prerequisite-ahead failure (`fail << ...` throws, so the
remaining prerequisites are not executed).  The first component is the
list of prerequisites that were executed, in order. -/
def path_rule.perform_update (mt : Nat) :
    List PrereqTarget → List PrereqTarget × Except String TargetState
  | [] => ([], Except.ok TargetState.unchanged)
  | p :: ps =>
    if p.mtimeBased then
      if mt < p.mtime then
        ([p], Except.error "no recipe: prerequisite is ahead of target")
      else
        let r := path_rule.perform_update mt ps
        (p :: r.1, r.2)
    else
      if p.execState = TargetState.changed then
        ([p], Except.error "no recipe: prerequisite is ahead, it was updated")
      else
        let r := path_rule.perform_update mt ps
        (p :: r.1, r.2)

/-- The state of a `path_target` that `path_rule` reads: the assigned
path (the empty string models an unassigned path) and whether the target
has declared prerequisites. -/
structure PathTarget where
  path : String
  hasPrereqs : Bool
deriving DecidableEq

/-- The recipes `path_rule::apply` can return. -/
inductive BRecipe
  | noop
  | default_
  | perform_update_fn
deriving DecidableEq

/-- `path_rule::match` (rule.cxx:33-65): under `perform_update` derive
the target's path when not yet assigned (`derive` models
`path_target::derive_path`, which can fail; its failure is the outer
`none`) and claim the target exactly when the file exists on disk
(mtime is not `timestamp_nonexistent`); for every other action claim
unconditionally.  The result carries the claim flag and the (possibly
path-assigned) target. -/
def path_rule.match' (onDisk : String → Bool)
    (derive : PathTarget → Option String) (a : BAction) (t : PathTarget) :
    Option (Bool × PathTarget) :=
  if a = perform_update_id then
    match (if t.path = "" then derive t else some t.path) with
    | none => none
    | some p => some (onDisk p, { t with path := p })
  else
    some (true, t)

/-- `path_rule::apply` (rule.cxx:67-88): `noop` for the clean operation;
the `perform_update` function for the `perform_update` action; otherwise
`default` when the target has prerequisites and `noop` when it does
not. -/
def path_rule.apply (a : BAction) (t : PathTarget) : BRecipe :=
  if a.op = clean_id then BRecipe.noop
  else if a = perform_update_id then BRecipe.perform_update_fn
  else if t.hasPrereqs then BRecipe.default_
  else BRecipe.noop

/-- Result of `butl`'s `try_rmdir` as used by `fsdir_rule` and the
test-script runner. -/
inductive RmdirStatus
  | success
  | not_empty
  | not_exist
deriving DecidableEq

/-- Observable filesystem/execution steps of the `fsdir_rule` recipes,
used to state in which order the directory operation and the
prerequisite execution happen. -/
inductive FsdirEvent
  | execPrereqs
  | mkdirDir
  | rmdirDir
deriving DecidableEq

/-- `fsdir_rule::perform_update` (rule.cxx:196-234): first execute the
prerequisites (parent directory chain), then create this directory when
it does not exist; `changed` when it was created, otherwise the
prerequisites' state (`unchanged` when there are none). -/
def fsdir_rule.perform_update (dirExists hasPrereqs : Bool)
    (prereqState : TargetState) : List FsdirEvent × TargetState :=
  ((if hasPrereqs then [FsdirEvent.execPrereqs] else []) ++
     (if dirExists then [] else [FsdirEvent.mkdirDir]),
   if dirExists then
     (if hasPrereqs then prereqState else TargetState.unchanged)
   else TargetState.changed)

/-- `fsdir_rule::perform_clean` (rule.cxx:236-258): the reverse order of
update — first remove this directory, then clean the prerequisites;
`postponed` when the removal reported not-empty, `changed` when the
directory was removed, otherwise the prerequisites' state. -/
def fsdir_rule.perform_clean (rs : RmdirStatus) (hasPrereqs : Bool)
    (prereqState : TargetState) : List FsdirEvent × TargetState :=
  (FsdirEvent.rmdirDir :: (if hasPrereqs then [FsdirEvent.execPrereqs] else []),
   match rs with
   | RmdirStatus.success => TargetState.changed
   | RmdirStatus.not_empty => TargetState.postponed
   | RmdirStatus.not_exist =>
     if hasPrereqs then prereqState else TargetState.unchanged)

/-! ## Project bootstrap and import (`build/file.cxx`) -/

/-- A normalised directory path: an absolute flag and the list of
components.  Path normalisation itself is not load-bearing for the
claims and is modelled as the identity. -/
structure DirPath where
  abs : Bool
  comps : List String
deriving DecidableEq

/-- The empty `dir_path ()`. -/
def dpEmpty : DirPath := ⟨false, []⟩

/-- A buildfile name (`build/name`): optional directory, type tag and
value. -/
structure BName where
  dir : DirPath
  type : String
  value : String
deriving DecidableEq

/-- `name::simple ()`: no directory and no type. -/
def BName.simple (n : BName) : Bool :=
  n.dir == dpEmpty && n.type == ""

/-- `name::directory ()`: a directory and nothing else. -/
def BName.directory (n : BName) : Bool :=
  n.dir != dpEmpty && n.type == "" && n.value == ""

/-- `name::empty ()`. -/
def BName.emptyN (n : BName) : Bool :=
  n.dir == dpEmpty && n.type == "" && n.value == ""

/-- A variable's value as the 2015 `build` engine stores it: null, a
`dir_path` value, or an untyped `list_value` of names. -/
inductive BValue
  | null
  | dirv (d : DirPath)
  | listv (ns : List BName)
deriving DecidableEq

/-- A scope's variable map. -/
abbrev VarMap := List (String × BValue)

/-- Lookup of a variable in one scope's own map. -/
def lookupVar : VarMap → String → Option BValue
  | [], _ => none
  | (k', v) :: m, k => if k' = k then some v else lookupVar m k

/-- Assignment into a scope's map: replace the first binding of the
name, or add one. -/
def assignVar : VarMap → String → BValue → VarMap
  | [], k, v => [(k, v)]
  | (k', v') :: m, k, v =>
    if k' = k then (k, v) :: m else (k', v') :: assignVar m k v

/-- The parts of a root scope touched by `create_root`: the
meta-operation and operation tables and the variable map. -/
structure BScope where
  meta_operations : List String
  operations : List String
  vars : VarMap
deriving DecidableEq

/-- The out_root block of `create_root` (file.cxx:93-106): assign
`out_root` when unset (the `assign` reference being null), fail when it
is already set to a different value.  A stored value that is not a
`dir_path` makes the source's `as<const dir_path&>` meaningless and is
modelled as failure. -/
def create_root_out (rs : BScope) (out_root : DirPath) : Option BScope :=
  match lookupVar rs.vars "out_root" with
  | none =>
    some { rs with vars := assignVar rs.vars "out_root"
                             (BValue.dirv out_root) }
  | some BValue.null =>
    some { rs with vars := assignVar rs.vars "out_root"
                             (BValue.dirv out_root) }
  | some (BValue.dirv p) => if p = out_root then some rs else none
  | some (BValue.listv _) => none

/-- The src_root block of `create_root` (file.cxx:108-122): only when
the `src_root` argument is not empty, assign or verify `src_root` the
same way as `out_root`. -/
def create_root_src (rs : BScope) (src_root : DirPath) : Option BScope :=
  if src_root = dpEmpty then some rs
  else
    match lookupVar rs.vars "src_root" with
    | none =>
      some { rs with vars := assignVar rs.vars "src_root"
                               (BValue.dirv src_root) }
    | some BValue.null =>
      some { rs with vars := assignVar rs.vars "src_root"
                               (BValue.dirv src_root) }
    | some (BValue.dirv q) => if q = src_root then some rs else none
    | some (BValue.listv _) => none

/-- `create_root` (file.cxx:70-125): seed the built-in meta-operation
and operation tables when empty, then run the out_root and src_root
blocks. -/
def create_root (rs0 : BScope) (out_root src_root : DirPath) :
    Option BScope :=
  match create_root_out
      (if rs0.meta_operations.isEmpty then
        { rs0 with meta_operations := ["perform"],
                   operations := ["default", "update", "clean"] }
      else rs0) out_root with
  | none => none
  | some rs2 => create_root_src rs2 src_root

/-- The project part of the name passed to `import`: the name's value
for a simple name, else the first component of its directory. -/
def projectOf (n : BName) : String :=
  if n.dir = dpEmpty then n.value else n.dir.comps.headD ""

/-- The scopes `import` can reach: the global scope's variables, the
importing root scope's variables (the importing base scope `ibase` is
modelled as this root scope, which is where the source's only write to
the importing project goes), and the imported project's root scope,
which is a different scope since it lives at the imported project's
out_root. -/
structure ImportScopes where
  globalVars : VarMap
  irootVars : VarMap
  rs : BScope
deriving DecidableEq

/-- Making a configured out_root absolute and normalised
(file.cxx:324-327): a relative path is prefixed with the working
directory; normalisation is modelled as the identity. -/
def dpAbsolutise (w p : DirPath) : DirPath :=
  if p.abs = false then ⟨w.abs, w.comps ++ p.comps⟩ else p

/-- The bootstrap-and-stub part of `import` (file.cxx:336-416) once
out_root is known.  `isSrcRoot` models the `is_src_root` filesystem
check; `bootOut` and `bootSrc` model the parser sourcing
`bootstrap/src-root.build` and `bootstrap.build` (together with the
outer-root bootstrap and `root.build` loads) into the imported project's
scopes; `stubEval` models the parser evaluating `build/export.build`.
Modelled from the spec: the buildfile parser is an external collaborator
(not among the repository's files); per section 4.H it evaluates the
export stub in the temporary scope derived from the importing base
scope, with `out_root`, `src_root` and `target` pre-assigned, and the
temporary scope guarantees no variables leak back into the importer, so
its effect is confined to the imported project's scopes and the
temporary scope. -/
def doImportBoot (isSrcRoot : DirPath → Bool) (bootOut bootSrc : BScope → BScope)
    (stubEval : BScope → VarMap → BScope × VarMap × BValue)
    (st : ImportScopes) (out_root : DirPath) (target : BName) :
    Option (ImportScopes × BValue) :=
  let src_root := if isSrcRoot out_root then out_root else dpEmpty
  match create_root st.rs out_root src_root with
  | none => none
  | some rs1 =>
    let rs2 := bootOut rs1
    match lookupVar rs2.vars "src_root" with
    | some (BValue.dirv p) =>
      if src_root ≠ dpEmpty ∧ p ≠ src_root then none
      else
        let rs3 := bootSrc rs2
        let ts1 := assignVar [] "out_root" (BValue.dirv out_root)
        let ts2 := assignVar ts1 "src_root" (BValue.dirv src_root)
        let ts3 := assignVar ts2 "target"
          (if target.emptyN then BValue.null else BValue.listv [target])
        let r := stubEval rs3 ts3
        some ({ st with rs := r.1 }, r.2.2)
    | _ => none

/-- The out_root resolution of `import` (file.cxx:292-335): look
`config.<project>` up from the importing root scope (its scope chain
ends at the global scope); a value already belonging to the importing
root scope is used as a `dir_path`, while a (global) command-line value
must be a one-name list naming a directory, is absolutised against the
working directory `w`, normalised, and cached by assignment into the
importing root scope (`iroot.assign (var) = out_root`); then the
imported root is bootstrapped and the export stub evaluated
(`doImportBoot`).  All failure paths (`fail ...`) are `none`. -/
def doImportResolve (w : DirPath) (isSrcRoot : DirPath → Bool)
    (bootOut bootSrc : BScope → BScope)
    (stubEval : BScope → VarMap → BScope × VarMap × BValue)
    (st : ImportScopes) (project : String) (target : BName) :
    Option (ImportScopes × BValue) :=
  match lookupVar st.irootVars ("config." ++ project) with
  | some BValue.null => none
  | some (BValue.dirv d) =>
    doImportBoot isSrcRoot bootOut bootSrc stubEval st d target
  | some (BValue.listv _) => none
  | none =>
    match lookupVar st.globalVars ("config." ++ project) with
    | some (BValue.listv [n0]) =>
      if (if n0.directory then n0.dir
          else if n0.simple then (⟨false, [n0.value]⟩ : DirPath)
          else dpEmpty) = dpEmpty then none
      else
        doImportBoot isSrcRoot bootOut bootSrc stubEval
          (ImportScopes.mk st.globalVars
            (assignVar st.irootVars ("config." ++ project)
              (BValue.dirv (dpAbsolutise w
                (if n0.directory then n0.dir
                 else if n0.simple then ⟨false, [n0.value]⟩
                 else dpEmpty))))
            st.rs)
          (dpAbsolutise w
            (if n0.directory then n0.dir
             else if n0.simple then ⟨false, [n0.value]⟩
             else dpEmpty))
          target
    | _ => none

/-- `import` (file.cxx:254-416): split the name into project and target
(file.cxx:259-290), then resolve out_root, bootstrap and evaluate the
export stub (`doImportResolve`). -/
def doImport (w : DirPath) (isSrcRoot : DirPath → Bool)
    (bootOut bootSrc : BScope → BScope)
    (stubEval : BScope → VarMap → BScope × VarMap × BValue)
    (st : ImportScopes) (n : BName) : Option (ImportScopes × BValue) :=
  match (if n.dir = dpEmpty then
           (if n.simple then some (n.value, (⟨dpEmpty, "", ""⟩ : BName))
            else none)
         else
           match n.dir.comps with
           | [] => none
           | c :: rest => some (c, ⟨⟨false, rest⟩, n.type, n.value⟩)) with
  | none => none
  | some (project, target) =>
    doImportResolve w isSrcRoot bootOut bootSrc stubEval st project target

/-! ## Test-script runner (`build2/test/script/runner.cxx`) -/

/-- Result of `butl`'s `try_rmfile` as the runner uses it. -/
inductive RmfileStatus
  | success
  | not_exist
deriving DecidableEq

/-- `path::to_directory ()`: the path has a trailing directory
separator. -/
def toDirectory (p : String) : Bool := p.endsWith "/"

/-- Whether removing a registered cleanup path succeeds in `leave`: a
directory must be removed successfully (it exists and is empty), a file
must exist. -/
def removable (fsDir : String → RmdirStatus)
    (fsFile : String → RmfileStatus) (p : String) : Bool :=
  if toDirectory p then decide (fsDir p = RmdirStatus.success)
  else decide (fsFile p ≠ RmfileStatus.not_exist)

/-- The unique paths of a list in order, skipping those in `seen`:
what the `set<path> rp` dedup of `leave` keeps. -/
def dedupFrom (seen : List String) : List String → List String
  | [] => []
  | p :: ps =>
    if p ∈ seen then dedupFrom seen ps
    else p :: dedupFrom (p :: seen) ps

/-- The cleanup loop of `concurrent_runner::leave`: walk the (already
reversed) registrations, skip a path already seen, remove the others,
failing on a directory that is not removed successfully or a file that
does not exist; returns the paths removed, in order. -/
def leaveGo (fsDir : String → RmdirStatus) (fsFile : String → RmfileStatus) :
    List String → List String → Option (List String)
  | [], _ => some []
  | p :: ps, seen =>
    if p ∈ seen then leaveGo fsDir fsFile ps seen
    else if removable fsDir fsFile p then
      (leaveGo fsDir fsFile ps (p :: seen)).map (p :: ·)
    else none

/-- `concurrent_runner::leave` (runner.cxx:183-219): process the cleanup
registrations in reverse registration order with duplicates removed. -/
def concurrent_runner.leave (fsDir : String → RmdirStatus)
    (fsFile : String → RmfileStatus) (cleanups : List String) :
    Option (List String) :=
  leaveGo fsDir fsFile cleanups.reverse []

/-- The redirect types of the test-script runner. -/
inductive RedirectType
  | pass
  | null
  | merge
  | here_string
  | here_document
  | file
  | none
deriving DecidableEq

/-- A redirect: its type and, for here-strings/here-documents, the
expected content. -/
structure Redirect where
  type : RedirectType
  str : String
deriving DecidableEq

/-- `non_empty` (runner.cxx:23-43): the path is not empty, the file
exists and has at least one byte (`is.peek () != eof`).  The filesystem
is modelled as a partial map from paths to contents. -/
def non_empty (fs : String → Option String) (p : String) : Bool :=
  if p = "" then false
  else
    match fs p with
    | Option.none => false
    | Option.some c => decide (c ≠ "")

/-- `check_output` (runner.cxx:49-163) for one of stdout/stderr: for a
`none` redirect assert the captured file path is set and fail exactly
when the captured output is non-empty; for a here-string/here-document
redirect write the expected content and compare with `diff` (modelled by
the `diffOk` flag); a noop for every other redirect type. -/
def check_output (fs : String → Option String) (diffOk : Bool)
    (op : String) (rd : Redirect) : Option Unit :=
  if rd.type = RedirectType.none then
    if op = "" then Option.none
    else if non_empty fs op then Option.none
    else some ()
  else if rd.type = RedirectType.here_string ∨
          rd.type = RedirectType.here_document then
    if op = "" then Option.none
    else if diffOk then some () else Option.none
  else some ()

/-! ## Theorems: C1, C2, C3 helper lemmas -/

theorem find_none_of_no_match (k : TargetKey) :
    ∀ s : List Target, (∀ t ∈ s, keyMatches k t = false) →
      target_set.find k s = (none, s) := by
  intro s
  induction s with
  | nil => intro _; rfl
  | cons hd tl ih =>
    intro h
    have hhd := h hd (List.mem_cons_self hd tl)
    have htl := ih fun t ht => h t (List.mem_cons_of_mem hd ht)
    simp [target_set.find, hhd, htl]

theorem find_append_single (k : TargetKey) (t0 : Target)
    (h0 : keyMatches k t0 = true) :
    ∀ s : List Target, (∀ t ∈ s, keyMatches k t = false) →
      target_set.find k (s ++ [t0]) =
        (some s.length,
         s ++ [if t0.ext ≠ k.ext ∧ k.ext ≠ none then { t0 with ext := k.ext }
               else t0]) := by
  intro s
  induction s with
  | nil => intro _; simp [target_set.find, h0]
  | cons hd tl ih =>
    intro h
    have hhd := h hd (List.mem_cons_self hd tl)
    have htl := ih fun t ht => h t (List.mem_cons_of_mem hd ht)
    simp [target_set.find, hhd, htl]

/-- C1: for every target key k, two calls to `target_set::insert` with k
return the same target (the same position in the interned store); the
`inserted?` flag is true on the first call with k (no target matching k
being present yet) and false on the subsequent call. -/
theorem target_set.insert_unique (factory : TargetKey → Target)
    (s : List Target) (k : TargetKey)
    (hf : keyMatches k (factory k) = true)
    (hs : ∀ t ∈ s, keyMatches k t = false) :
    (target_set.insert factory s k).2.1 = true ∧
    (target_set.insert factory (target_set.insert factory s k).2.2 k).2.1
      = false ∧
    (target_set.insert factory (target_set.insert factory s k).2.2 k).1
      = (target_set.insert factory s k).1 := by
  have h1 : target_set.insert factory s k
      = (s.length, true, s ++ [factory k]) := by
    simp [target_set.insert, find_none_of_no_match k s hs]
  have h2 := find_append_single k (factory k) hf s hs
  refine ⟨by simp [h1], ?_, ?_⟩
  · rw [h1]
    simp [target_set.insert, h2]
  · rw [h1]
    simp [target_set.insert, h2]

theorem target_set.insert_unique_witness :
    (target_set.insert file_factory []
      ⟨"file", "d/", "", "foo", some "x"⟩).2.1 = true ∧
    (target_set.insert file_factory
      (target_set.insert file_factory []
        ⟨"file", "d/", "", "foo", some "x"⟩).2.2
      ⟨"file", "d/", "", "foo", some "x"⟩).2.1 = false ∧
    (target_set.insert file_factory
      (target_set.insert file_factory []
        ⟨"file", "d/", "", "foo", some "x"⟩).2.2
      ⟨"file", "d/", "", "foo", some "x"⟩).1
      = (target_set.insert file_factory []
          ⟨"file", "d/", "", "foo", some "x"⟩).1 :=
  target_set.insert_unique file_factory []
    ⟨"file", "d/", "", "foo", some "x"⟩ (by decide) (by decide)

theorem keyMatches_ext_cases (k : TargetKey) (t : Target)
    (hm : keyMatches k t = true) (hk : k.ext ≠ none) (hne : t.ext ≠ k.ext) :
    t.ext = none := by
  rcases hke : k.ext with _ | a
  · exact absurd hke hk
  · rcases hte : t.ext with _ | b
    · rfl
    · exfalso
      apply hne
      rw [hke, hte]
      simp only [keyMatches, hke, hte, Bool.and_eq_true, beq_iff_eq] at hm
      rw [hm.2]

/-- C2: `target_set::find` updates stored extensions only monotonically:
a target's extension is either left unchanged, or it was unspecified and
becomes the (specified) extension of the queried key.  In particular a
specified stored extension is never changed to a different specified
value. -/
theorem target_set.find_ext_monotonic (k : TargetKey) :
    ∀ (s : List Target) (j : Nat) (t t' : Target),
      s[j]? = some t → (target_set.find k s).2[j]? = some t' →
      t'.ext = t.ext ∨ (t.ext = none ∧ t'.ext = k.ext ∧ k.ext ≠ none) := by
  intro s
  induction s with
  | nil => intro j t t' h _; simp at h
  | cons hd tl ih =>
    intro j t t' h h'
    by_cases hm : keyMatches k hd = true
    · simp only [target_set.find, hm, if_true] at h'
      match j with
      | 0 =>
        simp only [List.getElem?_cons_zero, Option.some.injEq] at h h'
        rw [← h]
        by_cases hc : hd.ext ≠ k.ext ∧ k.ext ≠ none
        · rw [if_pos hc] at h'
          right
          refine ⟨keyMatches_ext_cases k hd hm hc.2 hc.1, ?_, hc.2⟩
          rw [← h']
        · rw [if_neg hc] at h'
          left
          rw [← h']
      | j + 1 =>
        simp only [List.getElem?_cons_succ] at h h'
        have hh := h.symm.trans h'
        injection hh with he
        left
        rw [he]
    · simp [target_set.find, hm] at h'
      match j with
      | 0 =>
        simp only [List.getElem?_cons_zero, Option.some.injEq] at h h'
        left
        rw [← h, ← h']
      | j + 1 =>
        simp only [List.getElem?_cons_succ] at h h'
        exact ih j t t' h h'

theorem target_set.find_ext_monotonic_witness :
    ((⟨"file", "d/", "", "foo", some "x"⟩ : TargetKey).ext = some "x") ∧
    (target_set.find ⟨"file", "d/", "", "foo", some "x"⟩
        [⟨"file", "d/", "", "foo", none⟩]).2
      = [⟨"file", "d/", "", "foo", some "x"⟩] ∧
    ((⟨"file", "d/", "", "foo", some "x"⟩ : Target).ext
        = (⟨"file", "d/", "", "foo", none⟩ : Target).ext ∨
      ((⟨"file", "d/", "", "foo", none⟩ : Target).ext = none ∧
       (⟨"file", "d/", "", "foo", some "x"⟩ : Target).ext
         = (⟨"file", "d/", "", "foo", some "x"⟩ : TargetKey).ext ∧
       (⟨"file", "d/", "", "foo", some "x"⟩ : TargetKey).ext ≠ none)) :=
  ⟨rfl, by decide,
   target_set.find_ext_monotonic ⟨"file", "d/", "", "foo", some "x"⟩
     [⟨"file", "d/", "", "foo", none⟩] 0
     ⟨"file", "d/", "", "foo", none⟩
     ⟨"file", "d/", "", "foo", some "x"⟩ (by decide) (by decide)⟩

/-- C3: with a recipe already installed on the target for action a0,
`target::recipe(a, r)` is permitted only when a is stronger than a0 in
the action override ordering; a non-stronger action is rejected (the
entry assertion `assert (a > action || !recipe_)` fails). -/
theorem target.recipe_requires_stronger {α : Type} [DecidableEq α]
    (gt : α → α → Bool) (t : TargetRec α) (a : α) (r r0 : Recipe)
    (h : t.recipe_ = some r0) :
    (gt a t.action = false → target.recipe gt t a r = none) ∧
    (target.recipe gt t a r ≠ none → gt a t.action = true) := by
  constructor
  · intro hgt
    simp [target.recipe, hgt, h]
  · intro hne
    by_cases hgt : gt a t.action = true
    · exact hgt
    · exfalso
      apply hne
      simp [target.recipe, hgt, h]

theorem target.recipe_requires_stronger_witness :
    target.recipe (fun x y => decide (y < x))
      (⟨1, some Recipe.noop, TargetState.unchanged, 0⟩ : TargetRec Nat)
      0 Recipe.default_ = none :=
  (target.recipe_requires_stronger (fun x y => decide (y < x))
      ⟨1, some Recipe.noop, TargetState.unchanged, 0⟩ 0 Recipe.default_
      Recipe.noop rfl).1 (by decide)

/-! ## Theorems: the fallback rules (C5, C6, C7) -/

/-- C5 (amended): `path_rule::perform_update` executes the resolved
prerequisites in order, checking each one right after executing it: it
executes exactly the prefix of the prerequisites up to and including the
first one that is ahead of the target (all of them when none is), fails
exactly when some prerequisite is ahead of the target (an mtime-based
prerequisite whose mtime strictly exceeds the target's, or another
prerequisite whose execution ended in state changed), and returns state
unchanged otherwise. -/
theorem path_rule.perform_update_spec (mt : Nat) (ps : List PrereqTarget) :
    (path_rule.perform_update mt ps).1
      = ps.take (ps.findIdx (prereqAhead mt) + 1) ∧
    ((path_rule.perform_update mt ps).2 = Except.ok TargetState.unchanged ↔
      ∀ p ∈ ps, prereqAhead mt p = false) ∧
    ((path_rule.perform_update mt ps).2 = Except.ok TargetState.unchanged ∨
      ∃ msg, (path_rule.perform_update mt ps).2 = Except.error msg) := by
  induction ps with
  | nil => simp [path_rule.perform_update]
  | cons p ps ih =>
    by_cases hb : prereqAhead mt p = true
    · have hres : path_rule.perform_update mt (p :: ps)
          = ([p], Except.error (if p.mtimeBased then
              "no recipe: prerequisite is ahead of target"
            else "no recipe: prerequisite is ahead, it was updated")) := by
        unfold prereqAhead at hb
        cases hm : p.mtimeBased with
        | true =>
          rw [hm] at hb
          simp only [if_pos] at hb
          simp [path_rule.perform_update, hm, of_decide_eq_true hb]
        | false =>
          rw [hm] at hb
          simp only [Bool.false_eq_true, if_neg, not_false_iff] at hb
          simp [path_rule.perform_update, hm, of_decide_eq_true hb]
      refine ⟨?_, ?_, ?_⟩
      · rw [hres]
        simp [List.findIdx_cons, hb]
      · rw [hres]
        constructor
        · intro hcontra
          cases hcontra
        · intro hall
          have := hall p (List.mem_cons_self p ps)
          rw [hb] at this
          cases this
      · rw [hres]
        exact Or.inr ⟨_, rfl⟩
    · have hb' : prereqAhead mt p = false := by
        cases hx : prereqAhead mt p
        · rfl
        · exact absurd hx hb
      have hres : path_rule.perform_update mt (p :: ps)
          = (p :: (path_rule.perform_update mt ps).1,
             (path_rule.perform_update mt ps).2) := by
        unfold prereqAhead at hb'
        cases hm : p.mtimeBased with
        | true =>
          rw [hm] at hb'
          simp only [if_pos] at hb'
          simp [path_rule.perform_update, hm, of_decide_eq_false hb']
        | false =>
          rw [hm] at hb'
          simp only [Bool.false_eq_true, if_neg, not_false_iff] at hb'
          simp [path_rule.perform_update, hm, of_decide_eq_false hb']
      refine ⟨?_, ?_, ?_⟩
      · rw [hres]
        simp [List.findIdx_cons, hb', ih.1]
      · rw [hres]
        simp only [List.mem_cons]
        constructor
        · intro hok q hq
          rcases hq with rfl | hq
          · exact hb'
          · exact (ih.2.1.mp hok) q hq
        · intro hall
          exact ih.2.1.mpr fun q hq => hall q (Or.inr hq)
      · rw [hres]
        exact ih.2.2

/-- C5 counterexample: with two prerequisites of which the first is
ahead of the target, the failure is raised after executing only the
first prerequisite — the second is never executed, so `perform_update`
does not execute all resolved prerequisites before checking. -/
theorem path_rule.perform_update_stops_early :
    (path_rule.perform_update 0
      [⟨true, 5, TargetState.unchanged⟩, ⟨true, 0, TargetState.unchanged⟩]).1
      = [⟨true, 5, TargetState.unchanged⟩] ∧
    ([(⟨true, 5, TargetState.unchanged⟩ : PrereqTarget)]
      ≠ [⟨true, 5, TargetState.unchanged⟩, ⟨true, 0, TargetState.unchanged⟩]) ∧
    (path_rule.perform_update 0
      [⟨true, 5, TargetState.unchanged⟩, ⟨true, 0, TargetState.unchanged⟩]).2
      = Except.error "no recipe: prerequisite is ahead of target" :=
  ⟨rfl, by decide, rfl⟩

/-- C6 counterexample: for a non-update action whose operation is not
clean (here configure/update: meta-operation 2, operation update) and a
target without prerequisites, `path_rule::apply` returns the noop
recipe, not the default recipe. -/
theorem path_rule.apply_default_counterexample :
    path_rule.apply ⟨2, update_id⟩ ⟨"f", false⟩ = BRecipe.noop ∧
    BRecipe.noop ≠ BRecipe.default_ :=
  ⟨rfl, by decide⟩

/-- C6 (amended): `path_rule::match` claims a target under
perform_update exactly when the target's file exists on disk, deriving
the path first when it is not yet assigned (and failing when the
derivation fails), and claims unconditionally under every other action;
`path_rule::apply` returns the noop recipe when the action's operation
is clean, the `perform_update` recipe for the perform_update action, and
for other actions the default recipe when the target has prerequisites
and the noop recipe when it has none. -/
theorem path_rule.match_apply_spec :
    (∀ (onDisk : String → Bool) (derive : PathTarget → Option String)
       (a : BAction) (t : PathTarget), a ≠ perform_update_id →
       path_rule.match' onDisk derive a t = some (true, t)) ∧
    (∀ (onDisk : String → Bool) (derive : PathTarget → Option String)
       (t : PathTarget), t.path ≠ "" →
       path_rule.match' onDisk derive perform_update_id t
         = some (onDisk t.path, t)) ∧
    (∀ (onDisk : String → Bool) (derive : PathTarget → Option String)
       (t : PathTarget) (p : String), t.path = "" → derive t = some p →
       path_rule.match' onDisk derive perform_update_id t
         = some (onDisk p, { t with path := p })) ∧
    (∀ (onDisk : String → Bool) (derive : PathTarget → Option String)
       (t : PathTarget), t.path = "" → derive t = none →
       path_rule.match' onDisk derive perform_update_id t = none) ∧
    (∀ (a : BAction) (t : PathTarget), a.op = clean_id →
       path_rule.apply a t = BRecipe.noop) ∧
    (∀ t : PathTarget,
       path_rule.apply perform_update_id t = BRecipe.perform_update_fn) ∧
    (∀ (a : BAction) (t : PathTarget), a.op ≠ clean_id →
       a ≠ perform_update_id →
       path_rule.apply a t
         = (if t.hasPrereqs then BRecipe.default_ else BRecipe.noop)) := by
  refine ⟨?_, ?_, ?_, ?_, ?_, ?_, ?_⟩
  · intro onDisk derive a t ha
    simp [path_rule.match', ha]
  · intro onDisk derive t ht
    simp [path_rule.match', ht]
  · intro onDisk derive t p ht hd
    simp [path_rule.match', ht, hd]
  · intro onDisk derive t ht hd
    simp [path_rule.match', ht, hd]
  · intro a t ha
    simp [path_rule.apply, ha]
  · intro t
    rfl
  · intro a t ha hpu
    simp [path_rule.apply, ha, hpu]

/-- C7: `fsdir_rule::perform_clean` first removes the target's
directory and only then executes the prerequisites — the reverse of
`perform_update`, which executes prerequisites before creating the
directory; it returns postponed when the removal reported not-empty,
changed when the directory was removed, and otherwise the state produced
by cleaning the prerequisites. -/
theorem fsdir_rule.perform_clean_spec (rs : RmdirStatus)
    (hasPrereqs dirExists : Bool) (ps ps' : TargetState) :
    (fsdir_rule.perform_clean rs hasPrereqs ps).1
      = FsdirEvent.rmdirDir ::
          (if hasPrereqs then [FsdirEvent.execPrereqs] else []) ∧
    (fsdir_rule.perform_update dirExists hasPrereqs ps').1
      = (if hasPrereqs then [FsdirEvent.execPrereqs] else []) ++
          (if dirExists then [] else [FsdirEvent.mkdirDir]) ∧
    (rs = RmdirStatus.not_empty →
      (fsdir_rule.perform_clean rs hasPrereqs ps).2 = TargetState.postponed) ∧
    (rs = RmdirStatus.success →
      (fsdir_rule.perform_clean rs hasPrereqs ps).2 = TargetState.changed) ∧
    (rs = RmdirStatus.not_exist →
      (fsdir_rule.perform_clean rs hasPrereqs ps).2
        = (if hasPrereqs then ps else TargetState.unchanged)) := by
  refine ⟨rfl, rfl, ?_, ?_, ?_⟩ <;> rintro rfl <;> rfl

/-! ## Theorems: bootstrap (C8) -/

theorem lookupVar_assign_self (m : VarMap) (k : String) (v : BValue) :
    lookupVar (assignVar m k v) k = some v := by
  induction m with
  | nil => simp [assignVar, lookupVar]
  | cons e m ih =>
    obtain ⟨k', v'⟩ := e
    by_cases h : k' = k
    · simp [assignVar, lookupVar, h]
    · simp [assignVar, lookupVar, h, ih]

theorem lookupVar_assign_other (m : VarMap) (k k0 : String) (v : BValue)
    (h : k0 ≠ k) : lookupVar (assignVar m k v) k0 = lookupVar m k0 := by
  induction m with
  | nil => simp [assignVar, lookupVar, Ne.symm h]
  | cons e m ih =>
    obtain ⟨k', v'⟩ := e
    by_cases hk : k' = k
    · subst hk
      simp [assignVar, lookupVar, Ne.symm h]
    · by_cases hk0 : k' = k0
      · subst hk0
        simp [assignVar, lookupVar, hk]
      · simp [assignVar, lookupVar, hk, hk0, ih]

theorem create_root_out_none_iff (rs : BScope) (o : DirPath)
    (hOut : ∀ lv, lookupVar rs.vars "out_root" ≠ some (BValue.listv lv)) :
    create_root_out rs o = none ↔
      ∃ p, lookupVar rs.vars "out_root" = some (BValue.dirv p) ∧ p ≠ o := by
  unfold create_root_out
  cases hlo : lookupVar rs.vars "out_root" with
  | none => simp
  | some v =>
    cases v with
    | null => simp
    | dirv p =>
      by_cases hp : p = o
      · subst hp
        simp
      · simp [hp]
    | listv lv => exact absurd hlo (hOut lv)

theorem create_root_out_some (rs : BScope) (o : DirPath) (rs' : BScope)
    (h : create_root_out rs o = some rs') :
    lookupVar rs'.vars "out_root" = some (BValue.dirv o) ∧
    ∀ key, key ≠ "out_root" →
      lookupVar rs'.vars key = lookupVar rs.vars key := by
  unfold create_root_out at h
  cases hlo : lookupVar rs.vars "out_root" with
  | none =>
    rw [hlo] at h
    simp only [] at h
    injection h with h
    rw [← h]
    exact ⟨lookupVar_assign_self _ _ _,
           fun key hkey => lookupVar_assign_other _ _ _ _ hkey⟩
  | some v =>
    cases v with
    | null =>
      rw [hlo] at h
      simp only [] at h
      injection h with h
      rw [← h]
      exact ⟨lookupVar_assign_self _ _ _,
             fun key hkey => lookupVar_assign_other _ _ _ _ hkey⟩
    | dirv p =>
      rw [hlo] at h
      simp only [] at h
      by_cases hp : p = o
      · subst hp
        rw [if_pos rfl] at h
        injection h with h
        rw [← h]
        exact ⟨hlo, fun key _ => rfl⟩
      · rw [if_neg hp] at h
        cases h
    | listv lv =>
      rw [hlo] at h
      simp only [] at h
      cases h

theorem create_root_src_none_iff (rs : BScope) (s : DirPath)
    (hSrc : ∀ lv, lookupVar rs.vars "src_root" ≠ some (BValue.listv lv)) :
    create_root_src rs s = none ↔
      s ≠ dpEmpty ∧
        ∃ q, lookupVar rs.vars "src_root" = some (BValue.dirv q) ∧ q ≠ s := by
  unfold create_root_src
  by_cases hs : s = dpEmpty
  · simp [hs]
  · rw [if_neg hs]
    cases hls : lookupVar rs.vars "src_root" with
    | none => simp [hs]
    | some v =>
      cases v with
      | null => simp [hs]
      | dirv q =>
        by_cases hq : q = s
        · subst hq
          simp
        · simp [hs, hq]
      | listv lv => exact absurd hls (hSrc lv)

theorem create_root_src_some (rs : BScope) (s : DirPath) (rs' : BScope)
    (h : create_root_src rs s = some rs') :
    (s ≠ dpEmpty → lookupVar rs'.vars "src_root" = some (BValue.dirv s)) ∧
    (s = dpEmpty → rs' = rs) ∧
    ∀ key, key ≠ "src_root" →
      lookupVar rs'.vars key = lookupVar rs.vars key := by
  unfold create_root_src at h
  by_cases hs : s = dpEmpty
  · rw [if_pos hs] at h
    injection h with h
    rw [← h]
    exact ⟨fun hne => absurd hs hne, fun _ => rfl, fun key _ => rfl⟩
  · rw [if_neg hs] at h
    cases hls : lookupVar rs.vars "src_root" with
    | none =>
      rw [hls] at h
      simp only [] at h
      injection h with h
      rw [← h]
      exact ⟨fun _ => lookupVar_assign_self _ _ _, fun he => absurd he hs,
             fun key hkey => lookupVar_assign_other _ _ _ _ hkey⟩
    | some v =>
      cases v with
      | null =>
        rw [hls] at h
        simp only [] at h
        injection h with h
        rw [← h]
        exact ⟨fun _ => lookupVar_assign_self _ _ _, fun he => absurd he hs,
               fun key hkey => lookupVar_assign_other _ _ _ _ hkey⟩
      | dirv q =>
        rw [hls] at h
        simp only [] at h
        by_cases hq : q = s
        · subst hq
          rw [if_pos rfl] at h
          injection h with h
          rw [← h]
          exact ⟨fun _ => hls, fun he => absurd he hs, fun key _ => rfl⟩
        · rw [if_neg hq] at h
          cases h
      | listv lv =>
        rw [hls] at h
        simp only [] at h
        cases h

/-- C8: `create_root` fails exactly when the scope already stores an
out_root different from the argument, or — the out_root check passing
and the src_root argument being non-empty — a src_root different from
the argument; otherwise it succeeds and (re)assigns the variables.  In
particular, re-bootstrapping a root with a different src_root fails.
The hypotheses exclude a stored value of the wrong type, on which the
source's `as<const dir_path&>` is meaningless. -/
theorem create_root_spec (rs : BScope) (o s : DirPath)
    (hOut : ∀ lv, lookupVar rs.vars "out_root" ≠ some (BValue.listv lv))
    (hSrc : ∀ lv, lookupVar rs.vars "src_root" ≠ some (BValue.listv lv)) :
    (create_root rs o s = none ↔
      (∃ p, lookupVar rs.vars "out_root" = some (BValue.dirv p) ∧ p ≠ o) ∨
      ((∀ p, lookupVar rs.vars "out_root" = some (BValue.dirv p) → p = o) ∧
        s ≠ dpEmpty ∧
        ∃ q, lookupVar rs.vars "src_root" = some (BValue.dirv q) ∧ q ≠ s)) ∧
    (∀ rs', create_root rs o s = some rs' →
      lookupVar rs'.vars "out_root" = some (BValue.dirv o) ∧
      (s ≠ dpEmpty → lookupVar rs'.vars "src_root" = some (BValue.dirv s)) ∧
      (s = dpEmpty →
        lookupVar rs'.vars "src_root" = lookupVar rs.vars "src_root")) := by
  have hv : (if rs.meta_operations.isEmpty = true then
      { rs with meta_operations := ["perform"],
                operations := ["default", "update", "clean"] }
    else rs).vars = rs.vars := by
    split <;> rfl
  unfold create_root
  cases hout : create_root_out (if rs.meta_operations.isEmpty = true then
      { rs with meta_operations := ["perform"],
                operations := ["default", "update", "clean"] }
    else rs) o with
  | none =>
    have hx := (create_root_out_none_iff _ o (by rw [hv]; exact hOut)).mp hout
    rw [hv] at hx
    constructor
    · exact ⟨fun _ => Or.inl hx, fun _ => rfl⟩
    · intro rs' h
      cases h
  | some rs2 =>
    have hout2 := create_root_out_some _ o rs2 hout
    have hsrc2 : lookupVar rs2.vars "src_root"
        = lookupVar rs.vars "src_root" := by
      rw [hout2.2 "src_root" (by decide), hv]
    have hall : ∀ p, lookupVar rs.vars "out_root" = some (BValue.dirv p)
        → p = o := by
      intro p hp
      by_contra hne
      have : create_root_out (if rs.meta_operations.isEmpty = true then
          { rs with meta_operations := ["perform"],
                    operations := ["default", "update", "clean"] }
        else rs) o = none :=
        (create_root_out_none_iff _ o (by rw [hv]; exact hOut)).mpr
          ⟨p, by rw [hv]; exact hp, hne⟩
      rw [hout] at this
      cases this
    have hnolist : ∀ lv, lookupVar rs2.vars "src_root"
        ≠ some (BValue.listv lv) := by
      rw [hsrc2]
      exact hSrc
    constructor
    · rw [create_root_src_none_iff rs2 s hnolist, hsrc2]
      constructor
      · intro hfail
        exact Or.inr ⟨hall, hfail.1, hfail.2⟩
      · intro hor
        rcases hor with ⟨p, hp, hpo⟩ | ⟨_, hne, q, hq, hqs⟩
        · exact absurd (hall p hp) hpo
        · exact ⟨hne, q, hq, hqs⟩
    · intro rs' h
      have hsome := create_root_src_some rs2 s rs' h
      refine ⟨?_, hsome.1, ?_⟩
      · rw [hsome.2.2 "out_root" (by decide)]
        exact hout2.1
      · intro he
        rw [hsome.2.1 he, hsrc2]

theorem create_root_spec_witness :
    create_root
      ⟨["perform"], ["default", "update", "clean"],
        [("out_root", BValue.dirv ⟨true, ["o"]⟩),
         ("src_root", BValue.dirv ⟨true, ["s1"]⟩)]⟩
      ⟨true, ["o"]⟩ ⟨true, ["s2"]⟩ = none :=
  (create_root_spec
      ⟨["perform"], ["default", "update", "clean"],
        [("out_root", BValue.dirv ⟨true, ["o"]⟩),
         ("src_root", BValue.dirv ⟨true, ["s1"]⟩)]⟩
      ⟨true, ["o"]⟩ ⟨true, ["s2"]⟩
      (by intro lv h; cases h) (by intro lv h; cases h)).1.mpr
    (Or.inr ⟨by intro p hp; injection hp with hp; injection hp with hp;
                exact hp.symm,
             by decide, ⟨true, ["s1"]⟩, rfl, by decide⟩)

/-! ## Theorems: the test-script runner (C9, C10) -/

theorem dedupFrom_fresh :
    ∀ (ps seen : List String),
      (dedupFrom seen ps).Nodup ∧ ∀ p ∈ dedupFrom seen ps, p ∉ seen := by
  intro ps
  induction ps with
  | nil =>
    intro seen
    simp [dedupFrom]
  | cons p ps ih =>
    intro seen
    by_cases hm : p ∈ seen
    · simpa [dedupFrom, hm] using ih seen
    · have iht := ih (p :: seen)
      refine ⟨?_, ?_⟩
      · simp only [dedupFrom, if_neg hm, List.nodup_cons]
        refine ⟨fun hmem => ?_, iht.1⟩
        exact iht.2 p hmem (List.mem_cons_self p seen)
      · intro q hq
        simp only [dedupFrom, if_neg hm, List.mem_cons] at hq
        rcases hq with rfl | hq
        · exact hm
        · intro hqs
          exact iht.2 q hq (List.mem_cons_of_mem p hqs)

theorem leaveGo_ok_eq (fsDir : String → RmdirStatus)
    (fsFile : String → RmfileStatus) :
    ∀ (ps seen l : List String),
      leaveGo fsDir fsFile ps seen = some l → l = dedupFrom seen ps := by
  intro ps
  induction ps with
  | nil =>
    intro seen l h
    simp only [leaveGo] at h
    injection h with h
    rw [← h]
    rfl
  | cons p ps ih =>
    intro seen l h
    by_cases hm : p ∈ seen
    · rw [leaveGo, if_pos hm] at h
      rw [dedupFrom, if_pos hm]
      exact ih seen l h
    · rw [leaveGo, if_neg hm] at h
      rw [dedupFrom, if_neg hm]
      by_cases hr : removable fsDir fsFile p = true
      · rw [if_pos hr] at h
        cases hx : leaveGo fsDir fsFile ps (p :: seen) with
        | none => rw [hx] at h; cases h
        | some l' =>
          rw [hx] at h
          simp only [Option.map] at h
          injection h with h
          rw [← h, ih (p :: seen) l' hx]
      · rw [if_neg hr] at h
        cases h

theorem leaveGo_isSome_iff (fsDir : String → RmdirStatus)
    (fsFile : String → RmfileStatus) :
    ∀ (ps seen : List String),
      (leaveGo fsDir fsFile ps seen).isSome = true ↔
        ∀ p ∈ dedupFrom seen ps, removable fsDir fsFile p = true := by
  intro ps
  induction ps with
  | nil =>
    intro seen
    simp [leaveGo, dedupFrom]
  | cons p ps ih =>
    intro seen
    by_cases hm : p ∈ seen
    · rw [leaveGo, if_pos hm, dedupFrom, if_pos hm]
      exact ih seen
    · rw [leaveGo, if_neg hm, dedupFrom, if_neg hm]
      by_cases hr : removable fsDir fsFile p = true
      · rw [if_pos hr]
        constructor
        · intro hsome q hq
          rcases List.mem_cons.mp hq with rfl | hq
          · exact hr
          · refine (ih (p :: seen)).mp ?_ q hq
            cases hx : leaveGo fsDir fsFile ps (p :: seen) with
            | none => rw [hx] at hsome; cases hsome
            | some l' => rfl
        · intro hall
          have := (ih (p :: seen)).mpr
            (fun q hq => hall q (List.mem_cons_of_mem p hq))
          cases hx : leaveGo fsDir fsFile ps (p :: seen) with
          | none => rw [hx] at this; cases this
          | some l' => rfl
      · rw [if_neg hr]
        constructor
        · intro hsome
          cases hsome
        · intro hall
          exact absurd (hall p (List.mem_cons_self p (dedupFrom (p :: seen) ps))) hr

/-- C9: `concurrent_runner::leave` processes the cleanup stack in
reverse registration order with duplicate paths removed: on success the
removed paths are exactly the unique paths of the reversed registration
list, each acted on once, at its first occurrence in reverse order; and
the call succeeds exactly when every such path is removable — a
directory path must exist and be empty, a file path must exist. -/
theorem concurrent_runner.leave_spec (fsDir : String → RmdirStatus)
    (fsFile : String → RmfileStatus) (cleanups : List String) :
    (∀ l, concurrent_runner.leave fsDir fsFile cleanups = some l →
      l = dedupFrom [] cleanups.reverse ∧ l.Nodup ∧
      ∀ p ∈ l, removable fsDir fsFile p = true) ∧
    ((concurrent_runner.leave fsDir fsFile cleanups).isSome = true ↔
      ∀ p ∈ dedupFrom [] cleanups.reverse,
        removable fsDir fsFile p = true) := by
  constructor
  · intro l h
    have hl := leaveGo_ok_eq fsDir fsFile cleanups.reverse [] l h
    refine ⟨hl, hl ▸ (dedupFrom_fresh cleanups.reverse []).1, ?_⟩
    intro p hp
    have hsome : (concurrent_runner.leave fsDir fsFile cleanups).isSome
        = true := by
      rw [concurrent_runner.leave] at h ⊢
      rw [h]
      rfl
    exact (leaveGo_isSome_iff fsDir fsFile cleanups.reverse []).mp hsome p
      (hl ▸ hp)
  · exact leaveGo_isSome_iff fsDir fsFile cleanups.reverse []

/-- C10: for a stdout/stderr redirect of type `none`, `check_output`
succeeds exactly when the captured output file does not exist or is
empty, and fails exactly when it exists with at least one byte. -/
theorem check_output_none_spec (fs : String → Option String) (diffOk : Bool)
    (op : String) (rd : Redirect) (hop : op ≠ "")
    (hrd : rd.type = RedirectType.none) :
    check_output fs diffOk op rd = some () ↔
      (fs op = Option.none ∨ fs op = Option.some "") := by
  rw [check_output, if_pos hrd, if_neg hop]
  cases hf : fs op with
  | none => simp [non_empty, hop, hf]
  | some c =>
    by_cases hc : c = ""
    · subst hc
      simp [non_empty, hop, hf]
    · simp [non_empty, hop, hf, hc]

theorem check_output_none_spec_witness :
    check_output (fun _ => Option.none) true "stdout"
      ⟨RedirectType.none, ""⟩ = some () :=
  (check_output_none_spec (fun _ => Option.none) true "stdout"
      ⟨RedirectType.none, ""⟩ (by decide) rfl).mpr (Or.inl rfl)

/-! ## Theorems: import isolation (C4) -/

theorem doImportBoot_frame (isSrcRoot : DirPath → Bool)
    (bootOut bootSrc : BScope → BScope)
    (stubEval : BScope → VarMap → BScope × VarMap × BValue)
    (st : ImportScopes) (out_root : DirPath) (target : BName)
    (st' : ImportScopes) (v : BValue)
    (h : doImportBoot isSrcRoot bootOut bootSrc stubEval st out_root target
          = some (st', v)) :
    st'.globalVars = st.globalVars ∧ st'.irootVars = st.irootVars := by
  simp only [doImportBoot] at h
  cases hcr : create_root st.rs out_root
      (if isSrcRoot out_root then out_root else dpEmpty) with
  | none =>
    rw [hcr] at h
    simp only [] at h
    cases h
  | some rs1 =>
    rw [hcr] at h
    simp only [] at h
    cases hls : lookupVar (bootOut rs1).vars "src_root" with
    | none =>
      rw [hls] at h
      simp only [] at h
      cases h
    | some v0 =>
      rw [hls] at h
      cases v0 with
      | null =>
        simp only [] at h
        cases h
      | listv lv =>
        simp only [] at h
        cases h
      | dirv p =>
        simp only [] at h
        by_cases hcond : (if isSrcRoot out_root then out_root else dpEmpty)
            ≠ dpEmpty ∧ p ≠ (if isSrcRoot out_root then out_root else dpEmpty)
        · rw [if_pos hcond] at h
          cases h
        · rw [if_neg hcond] at h
          injection h with h
          have h1 := congrArg Prod.fst h
          simp only [] at h1
          rw [← h1]
          exact ⟨rfl, rfl⟩

theorem doImportResolve_frame (w : DirPath) (isSrcRoot : DirPath → Bool)
    (bootOut bootSrc : BScope → BScope)
    (stubEval : BScope → VarMap → BScope × VarMap × BValue)
    (st : ImportScopes) (project : String) (target : BName)
    (st' : ImportScopes) (v : BValue)
    (h : doImportResolve w isSrcRoot bootOut bootSrc stubEval st project
          target = some (st', v)) :
    st'.globalVars = st.globalVars ∧
    (st'.irootVars = st.irootVars ∨
      ((∃ d, st'.irootVars
          = assignVar st.irootVars ("config." ++ project) (BValue.dirv d)) ∧
        lookupVar st.irootVars ("config." ++ project) = none)) := by
  unfold doImportResolve at h
  cases hli : lookupVar st.irootVars ("config." ++ project) with
  | some v0 =>
    rw [hli] at h
    cases v0 with
    | null =>
      simp only [] at h
      cases h
    | dirv d =>
      simp only [] at h
      have hf := doImportBoot_frame isSrcRoot bootOut bootSrc stubEval st d
        target st' v h
      exact ⟨hf.1, Or.inl hf.2⟩
    | listv lv =>
      simp only [] at h
      cases h
  | none =>
    rw [hli] at h
    simp only [] at h
    cases hlg : lookupVar st.globalVars ("config." ++ project) with
    | none =>
      rw [hlg] at h
      simp only [] at h
      cases h
    | some v0 =>
      rw [hlg] at h
      cases v0 with
      | null =>
        simp only [] at h
        cases h
      | dirv d =>
        simp only [] at h
        cases h
      | listv lv =>
        cases lv with
        | nil =>
          simp only [] at h
          cases h
        | cons n0 rest =>
          cases rest with
          | cons n1 rest2 =>
            simp only [] at h
            cases h
          | nil =>
            simp only [] at h
            by_cases h0 : (if n0.directory = true then n0.dir
                else if n0.simple = true then (⟨false, [n0.value]⟩ : DirPath)
                else dpEmpty) = dpEmpty
            · rw [if_pos h0] at h
              cases h
            · rw [if_neg h0] at h
              have hf := doImportBoot_frame isSrcRoot bootOut bootSrc stubEval
                (ImportScopes.mk st.globalVars
                  (assignVar st.irootVars ("config." ++ project)
                    (BValue.dirv (dpAbsolutise w
                      (if n0.directory then n0.dir
                       else if n0.simple then ⟨false, [n0.value]⟩
                       else dpEmpty))))
                  st.rs)
                (dpAbsolutise w
                  (if n0.directory then n0.dir
                   else if n0.simple then ⟨false, [n0.value]⟩
                   else dpEmpty))
                target st' v h
              exact ⟨hf.1, Or.inr ⟨⟨_, hf.2⟩, rfl⟩⟩

/-- C4 (amended): a successful `import` leaves the global scope
unchanged and leaves at most one change in the importing scope: when
`config.<project>` came from the global (command-line) scope, its
normalised out_root value is cached by assignment in the importing root
scope; every other variable of the importing root scope is unchanged,
and when `config.<project>` already belonged to the importing root scope
the import leaves its variable map entirely unchanged.  The export stub
runs in a temporary scope — the `out_root`, `src_root` and `target`
values passed to it are assigned there and never into the importer. -/
theorem doImport_isolation (w : DirPath) (isSrcRoot : DirPath → Bool)
    (bootOut bootSrc : BScope → BScope)
    (stubEval : BScope → VarMap → BScope × VarMap × BValue)
    (st : ImportScopes) (n : BName) (st' : ImportScopes) (v : BValue)
    (h : doImport w isSrcRoot bootOut bootSrc stubEval st n
          = some (st', v)) :
    st'.globalVars = st.globalVars ∧
    (st'.irootVars = st.irootVars ∨
      ((∃ d, st'.irootVars
          = assignVar st.irootVars ("config." ++ projectOf n)
              (BValue.dirv d)) ∧
        lookupVar st.irootVars ("config." ++ projectOf n) = none)) ∧
    (∀ key, key ≠ "config." ++ projectOf n →
      lookupVar st'.irootVars key = lookupVar st.irootVars key) := by
  unfold doImport at h
  by_cases hdir : n.dir = dpEmpty
  · rw [if_pos hdir] at h
    by_cases hsimple : n.simple = true
    · rw [if_pos hsimple] at h
      simp only [] at h
      have hproj : projectOf n = n.value := by
        rw [projectOf, if_pos hdir]
      have hf := doImportResolve_frame w isSrcRoot bootOut bootSrc stubEval
        st n.value ⟨dpEmpty, "", ""⟩ st' v h
      rw [hproj]
      refine ⟨hf.1, hf.2, ?_⟩
      intro key hkey
      rcases hf.2 with he | ⟨⟨d, he⟩, _⟩
      · rw [he]
      · rw [he, lookupVar_assign_other _ _ _ _ hkey]
    · rw [if_neg hsimple] at h
      simp only [] at h
      cases h
  · rw [if_neg hdir] at h
    cases hcomps : n.dir.comps with
    | nil =>
      rw [hcomps] at h
      simp only [] at h
      cases h
    | cons c rest =>
      rw [hcomps] at h
      simp only [] at h
      have hproj : projectOf n = c := by
        rw [projectOf, if_neg hdir, hcomps]
        rfl
      have hf := doImportResolve_frame w isSrcRoot bootOut bootSrc stubEval
        st c ⟨⟨false, rest⟩, n.type, n.value⟩ st' v h
      rw [hproj]
      refine ⟨hf.1, hf.2, ?_⟩
      intro key hkey
      rcases hf.2 with he | ⟨⟨d, he⟩, _⟩
      · rw [he]
      · rw [he, lookupVar_assign_other _ _ _ _ hkey]

theorem doImport_isolation_witness :
    ([("config.b", BValue.listv [⟨⟨false, []⟩, "", "bdir"⟩])] : VarMap)
      = [("config.b", BValue.listv [⟨⟨false, []⟩, "", "bdir"⟩])] ∧
    (([("config.b", BValue.dirv ⟨true, ["w", "bdir"]⟩)] : VarMap) = [] ∨
      ((∃ d, ([("config.b", BValue.dirv ⟨true, ["w", "bdir"]⟩)] : VarMap)
          = assignVar []
              ("config." ++ projectOf ⟨⟨false, []⟩, "", "b"⟩)
              (BValue.dirv d)) ∧
        lookupVar [] ("config." ++ projectOf ⟨⟨false, []⟩, "", "b"⟩)
          = none)) ∧
    (∀ key, key ≠ "config." ++ projectOf ⟨⟨false, []⟩, "", "b"⟩ →
      lookupVar [("config.b", BValue.dirv ⟨true, ["w", "bdir"]⟩)] key
        = lookupVar [] key) :=
  doImport_isolation ⟨true, ["w"]⟩ (fun _ => true) id id
    (fun rs ts => (rs, ts, BValue.null))
    ⟨[("config.b", BValue.listv [⟨⟨false, []⟩, "", "bdir"⟩])], [],
      ⟨[], [], []⟩⟩
    ⟨⟨false, []⟩, "", "b"⟩
    ⟨[("config.b", BValue.listv [⟨⟨false, []⟩, "", "bdir"⟩])],
      [("config.b", BValue.dirv ⟨true, ["w", "bdir"]⟩)],
      ⟨["perform"], ["default", "update", "clean"],
        [("out_root", BValue.dirv ⟨true, ["w", "bdir"]⟩),
         ("src_root", BValue.dirv ⟨true, ["w", "bdir"]⟩)]⟩⟩
    BValue.null rfl

/-- C4 counterexample: a successful import whose `config.<project>` came
from the global (command-line) scope assigns the normalised out_root
into the importing root scope: afterwards the importing scope, whose
variable map was empty, holds the new variable `config.b`, so the import
does leave a new variable in the importing scope. -/
theorem doImport_config_var_counterexample :
    doImport ⟨true, ["w"]⟩ (fun _ => true) id id
        (fun rs ts => (rs, ts, BValue.null))
        ⟨[("config.b", BValue.listv [⟨⟨false, []⟩, "", "bdir"⟩])], [],
          ⟨[], [], []⟩⟩
        ⟨⟨false, []⟩, "", "b"⟩
      = some
          (⟨[("config.b", BValue.listv [⟨⟨false, []⟩, "", "bdir"⟩])],
            [("config.b", BValue.dirv ⟨true, ["w", "bdir"]⟩)],
            ⟨["perform"], ["default", "update", "clean"],
              [("out_root", BValue.dirv ⟨true, ["w", "bdir"]⟩),
               ("src_root", BValue.dirv ⟨true, ["w", "bdir"]⟩)]⟩⟩,
           BValue.null) ∧
    lookupVar [("config.b", BValue.dirv ⟨true, ["w", "bdir"]⟩)] "config.b"
      ≠ lookupVar ([] : VarMap) "config.b" :=
  ⟨rfl, by decide⟩
